import Mathlib

set_option maxHeartbeats 1000000

/-!
Shallow embedding of the report-assembly and spring-configuration core of
`src/app.py` (a Streamlit spring-management system), together with proofs of
the specification's claims about it.

Python dictionaries are modelled as insertion-ordered association lists
(`List (String × v)`): assignment updates the value in place when the key is
already present and appends otherwise, exactly like `dict.__setitem__`;
lookup returns the value at the first (unique) matching key. Python strings
are modelled as Lean `String`s; `pat in s` is substring containment on the
character lists.
-/

/-- Python's substring test `pat in s`. -/
def strContains (s pat : String) : Prop :=
  pat.data <:+: s.data

instance decStrContains (s pat : String) : Decidable (strContains s pat) :=
  List.decidableInfix pat.data s.data

/-- Keys of an association-list dictionary, in insertion order. -/
def keys {v : Type} (d : List (String × v)) : List String :=
  d.map (·.1)

/-- Python's `d[k]` / `d.get(k)` for a dict modelled as an association list. -/
def dictGet {v : Type} (k : String) : List (String × v) → Option v
  | [] => none
  | p :: t => if k = p.1 then some p.2 else dictGet k t

/-- Python's `d[k] = val`: update the value in place when the key is present
(keeping its insertion position), append the pair otherwise. -/
def dictSet {v : Type} (d : List (String × v)) (k : String) (val : v) : List (String × v) :=
  if k ∈ keys d then d.map (fun p => if p.1 = k then (k, val) else p)
  else d ++ [(k, val)]

/-! ### Association-list lemmas -/

theorem dictGet_append_of_some {v : Type} {k : String} {l1 : List (String × v)} {x : v}
    (l2 : List (String × v)) (h : dictGet k l1 = some x) :
    dictGet k (l1 ++ l2) = some x := by
  induction l1 with
  | nil => simp [dictGet] at h
  | cons a t ih =>
    obtain ⟨k0, v0⟩ := a
    by_cases hk : k = k0
    · simp [dictGet, hk] at h ⊢
      exact h
    · simp [dictGet, hk] at h ⊢
      exact ih h

theorem dictGet_append_of_none {v : Type} {k : String} {l1 : List (String × v)}
    (l2 : List (String × v)) (h : dictGet k l1 = none) :
    dictGet k (l1 ++ l2) = dictGet k l2 := by
  induction l1 with
  | nil => simp
  | cons a t ih =>
    obtain ⟨k0, v0⟩ := a
    by_cases hk : k = k0
    · simp [dictGet, hk] at h
    · simp [dictGet, hk] at h ⊢
      exact ih h

theorem mem_keys_iff_isSome {v : Type} (d : List (String × v)) (k : String) :
    k ∈ keys d ↔ (dictGet k d).isSome := by
  induction d with
  | nil => simp [keys, dictGet]
  | cons a t ih =>
    obtain ⟨k0, v0⟩ := a
    by_cases hk : k = k0
    · simp [keys, dictGet, hk]
    · simp only [keys, List.map_cons, List.mem_cons, dictGet, hk, if_false]
      rw [← ih]
      simp [keys, hk]

theorem dictGet_eq_none_of_not_mem {v : Type} {d : List (String × v)} {k : String}
    (h : k ∉ keys d) : dictGet k d = none := by
  cases hl : dictGet k d with
  | none => rfl
  | some x =>
    exact absurd ((mem_keys_iff_isSome d k).mpr (by rw [hl]; rfl)) h

theorem dictGet_map_set_ne {v : Type} (d : List (String × v)) (k k' : String) (val : v)
    (h : k' ≠ k) :
    dictGet k' (d.map (fun p => if p.1 = k then (k, val) else p)) = dictGet k' d := by
  induction d with
  | nil => simp
  | cons a t ih =>
    obtain ⟨k0, v0⟩ := a
    by_cases hk : k0 = k
    · subst hk
      simp [dictGet, h, ih]
    · by_cases h2 : k' = k0
      · simp [dictGet, hk, h2]
      · simp [dictGet, hk, h2, ih]

theorem dictGet_map_set_self {v : Type} (d : List (String × v)) (k : String) (val : v)
    (h : k ∈ keys d) :
    dictGet k (d.map (fun p => if p.1 = k then (k, val) else p)) = some val := by
  induction d with
  | nil => simp [keys] at h
  | cons a t ih =>
    obtain ⟨k0, v0⟩ := a
    by_cases hk : k0 = k
    · subst hk
      simp [dictGet]
    · have hm : k ∈ keys t := by
        simp only [keys, List.map_cons, List.mem_cons] at h
        rcases h with h | h
        · exact absurd h.symm hk
        · exact h
      have h2 : k ≠ k0 := fun he => hk he.symm
      simp [dictGet, hk, h2, ih hm]

theorem dictGet_dictSet_self {v : Type} (d : List (String × v)) (k : String) (val : v) :
    dictGet k (dictSet d k val) = some val := by
  unfold dictSet
  by_cases hc : k ∈ keys d
  · rw [if_pos hc]
    exact dictGet_map_set_self d k val hc
  · rw [if_neg hc]
    rw [dictGet_append_of_none _ (dictGet_eq_none_of_not_mem hc)]
    simp [dictGet]

theorem dictGet_dictSet_ne {v : Type} (d : List (String × v)) (k k' : String) (val : v)
    (h : k' ≠ k) :
    dictGet k' (dictSet d k val) = dictGet k' d := by
  unfold dictSet
  by_cases hc : k ∈ keys d
  · rw [if_pos hc]
    exact dictGet_map_set_ne d k k' val h
  · rw [if_neg hc]
    cases hl : dictGet k' d with
    | some x => exact dictGet_append_of_some _ hl
    | none =>
      rw [dictGet_append_of_none _ hl]
      simp [dictGet, h]

theorem keys_map_set {v : Type} (d : List (String × v)) (k : String) (val : v) :
    keys (d.map (fun p => if p.1 = k then (k, val) else p)) = keys d := by
  induction d with
  | nil => rfl
  | cons a t ih =>
    obtain ⟨k0, v0⟩ := a
    simp only [keys] at ih ⊢
    by_cases hk : k0 = k
    · subst hk
      simp [ih]
    · simp [hk, ih]

theorem keys_dictSet_of_mem {v : Type} {d : List (String × v)} {k : String} (val : v)
    (hc : k ∈ keys d) : keys (dictSet d k val) = keys d := by
  unfold dictSet
  rw [if_pos hc]
  exact keys_map_set d k val

theorem keys_dictSet_of_not_mem {v : Type} {d : List (String × v)} {k : String} (val : v)
    (hc : k ∉ keys d) : keys (dictSet d k val) = keys d ++ [k] := by
  unfold dictSet
  rw [if_neg hc]
  simp [keys]

theorem mem_keys_dictSet_iff {v : Type} (d : List (String × v)) (k k' : String) (val : v) :
    k' ∈ keys (dictSet d k val) ↔ k' ∈ keys d ∨ k' = k := by
  by_cases hc : k ∈ keys d
  · rw [keys_dictSet_of_mem val hc]
    constructor
    · exact Or.inl
    · rintro (h | h)
      · exact h
      · rw [h]; exact hc
  · rw [keys_dictSet_of_not_mem val hc]
    simp

theorem length_dictSet_of_mem {v : Type} {d : List (String × v)} {k : String} (val : v)
    (hc : k ∈ keys d) : (dictSet d k val).length = d.length := by
  unfold dictSet
  rw [if_pos hc]
  simp

theorem length_dictSet_of_not_mem {v : Type} {d : List (String × v)} {k : String} (val : v)
    (hc : k ∉ keys d) : (dictSet d k val).length = d.length + 1 := by
  unfold dictSet
  rw [if_neg hc]
  simp

/-! ### Python string primitives -/

/-- Python's default whitespace class for `str.strip()` (ASCII subset). -/
def isSpaceChar (c : Char) : Bool :=
  c == ' ' || c == '\t' || c == '\n' || c == '\r' || c == '\x0b' || c == '\x0c'

/-- Python's `str.strip()`: drop leading and trailing whitespace. -/
def pyStrip (s : String) : String :=
  String.mk (((s.data.dropWhile isSpaceChar).reverse.dropWhile isSpaceChar).reverse)

/-- Python's `str.upper()` (ASCII case mapping). -/
def pyUpper (s : String) : String :=
  String.mk (s.data.map Char.toUpper)

/-- Python's `str.lower()` (ASCII case mapping). -/
def pyLower (s : String) : String :=
  String.mk (s.data.map Char.toLower)

/-! ### Spring Configuration Resolver (`get_spring_counts`, app.py lines 145-165) -/

/-- One row of the `spring_types` master table, as consumed by
`get_spring_counts`: `st_item.get("spring_type", "")`,
`st_item.get("coach_types") or []` and `st_item.get("max_per_bogie", 4)`
(the latter modelled as an optional integer defaulting to 4). -/
structure SpringTypeDef where
  spring_type : String
  coach_types : List String
  max_per_bogie : Option Int
deriving DecidableEq

/-- Body of the `for st_item in spring_types` loop of `get_spring_counts`:
skip definitions not applicable to the coach type; under an "AIR" secondary
suspension skip definitions whose display name contains "secondary"
(case-insensitively); otherwise assign `name -> max_per_bogie` (default 4). -/
def springStep (coach_type normalized : String) (counts : List (String × Int))
    (st_item : SpringTypeDef) : List (String × Int) :=
  if coach_type ∈ st_item.coach_types then
    if strContains normalized "AIR" ∧ strContains (pyLower st_item.spring_type) "secondary" then
      counts
    else dictSet counts st_item.spring_type (st_item.max_per_bogie.getD 4)
  else counts

/-- The master-table loop of `get_spring_counts` (app.py lines 150-158),
started from the empty dict, with the secondary type normalized by
`str(secondary_type).strip().upper()` (`pyUpper (pyStrip secondary_type)`). -/
def springLoop (coach_type secondary_type : String) (spring_types : List SpringTypeDef) :
    List (String × Int) :=
  spring_types.foldl (springStep coach_type (pyUpper (pyStrip secondary_type))) []

/-- The "COIL" augmentation of `get_spring_counts` (app.py lines 160-163):
for each of "Secondary Outer", "Secondary Inner", insert quantity 2 if the
name is not already a key. -/
def coilEnsure (counts : List (String × Int)) : List (String × Int) :=
  ["Secondary Outer", "Secondary Inner"].foldl
    (fun c sec_name => if sec_name ∈ keys c then c else c ++ [(sec_name, (2 : Int))])
    counts

/-- `get_spring_counts` (app.py lines 145-165): resolve the spring
configuration for a coach type and secondary-suspension type from the master
spring-type table. -/
def get_spring_counts (coach_type secondary_type : String)
    (spring_types : List SpringTypeDef) : List (String × Int) :=
  let counts := springLoop coach_type secondary_type spring_types
  if strContains (pyUpper (pyStrip secondary_type)) "COIL" then coilEnsure counts else counts

/-! ### Lemmas about the resolver -/

theorem dictGet_ensure_self (c : List (String × Int)) (n : String) :
    dictGet n (if n ∈ keys c then c else c ++ [(n, (2 : Int))]) =
      some ((dictGet n c).getD 2) := by
  by_cases h : n ∈ keys c
  · rw [if_pos h]
    have hs := (mem_keys_iff_isSome c n).mp h
    cases hg : dictGet n c with
    | none => rw [hg] at hs; simp at hs
    | some x => simp [hg]
  · rw [if_neg h]
    rw [dictGet_append_of_none _ (dictGet_eq_none_of_not_mem h)]
    simp [dictGet, dictGet_eq_none_of_not_mem h]

theorem dictGet_ensure_ne (c : List (String × Int)) (n k : String) (h : k ≠ n) :
    dictGet k (if n ∈ keys c then c else c ++ [(n, (2 : Int))]) = dictGet k c := by
  by_cases hm : n ∈ keys c
  · rw [if_pos hm]
  · rw [if_neg hm]
    cases hg : dictGet k c with
    | some x => exact dictGet_append_of_some _ hg
    | none => rw [dictGet_append_of_none _ hg]; simp [dictGet, h]

theorem dictGet_coilEnsure (c : List (String × Int)) :
    dictGet "Secondary Outer" (coilEnsure c) = some ((dictGet "Secondary Outer" c).getD 2) ∧
    dictGet "Secondary Inner" (coilEnsure c) = some ((dictGet "Secondary Inner" c).getD 2) := by
  have hne : ("Secondary Inner" : String) ≠ "Secondary Outer" := by decide
  have hne2 : ("Secondary Outer" : String) ≠ "Secondary Inner" := by decide
  simp only [coilEnsure, List.foldl_cons, List.foldl_nil]
  constructor
  · rw [dictGet_ensure_ne _ _ _ hne2, dictGet_ensure_self]
  · rw [dictGet_ensure_self, dictGet_ensure_ne _ _ _ hne]

theorem foldl_springStep_keys_air (coach_type normalized : String)
    (l : List SpringTypeDef) (hair : strContains normalized "AIR") :
    ∀ acc : List (String × Int),
      (∀ k ∈ keys acc, ¬ strContains (pyLower k) "secondary") →
      ∀ k ∈ keys (l.foldl (springStep coach_type normalized) acc),
        ¬ strContains (pyLower k) "secondary" := by
  induction l with
  | nil => intro acc hacc k hk; exact hacc k hk
  | cons it l ih =>
    intro acc hacc k hk
    rw [List.foldl_cons] at hk
    apply ih _ _ k hk
    intro k' hk'
    unfold springStep at hk'
    by_cases h1 : coach_type ∈ it.coach_types
    · rw [if_pos h1] at hk'
      by_cases h2 : strContains normalized "AIR" ∧ strContains (pyLower it.spring_type) "secondary"
      · rw [if_pos h2] at hk'
        exact hacc k' hk'
      · rw [if_neg h2] at hk'
        rcases (mem_keys_dictSet_iff _ _ _ _).mp hk' with h | h
        · exact hacc k' h
        · subst h
          intro hsec
          exact h2 ⟨hair, hsec⟩
    · rw [if_neg h1] at hk'
      exact hacc k' hk'

theorem foldl_springStep_unknown (coach_type normalized : String)
    (l : List SpringTypeDef) (h : ∀ it ∈ l, coach_type ∉ it.coach_types)
    (acc : List (String × Int)) :
    l.foldl (springStep coach_type normalized) acc = acc := by
  induction l generalizing acc with
  | nil => rfl
  | cons it l ih =>
    rw [List.foldl_cons]
    have hit : coach_type ∉ it.coach_types := h it (by simp)
    have hstep : springStep coach_type normalized acc it = acc := by
      unfold springStep
      rw [if_neg hit]
    rw [hstep]
    exact ih (fun x hx => h x (by simp [hx])) acc

/-! ### Claims C1, C2, C7 -/

/-- Claim C1: for every coach type and master table, if the trimmed
upper-cased secondary type contains "COIL" then the resolved configuration
contains entries for "Secondary Outer" and "Secondary Inner"; each is bound
to 2 exactly when the master-table loop did not already produce it, and a
value the loop produced explicitly is never overwritten. -/
theorem coil_config_contains_secondary (coach_type secondary_type : String)
    (spring_types : List SpringTypeDef)
    (hcoil : strContains (pyUpper (pyStrip secondary_type)) "COIL") :
    dictGet "Secondary Outer" (get_spring_counts coach_type secondary_type spring_types) =
      some ((dictGet "Secondary Outer" (springLoop coach_type secondary_type spring_types)).getD 2) ∧
    dictGet "Secondary Inner" (get_spring_counts coach_type secondary_type spring_types) =
      some ((dictGet "Secondary Inner" (springLoop coach_type secondary_type spring_types)).getD 2) := by
  have h := dictGet_coilEnsure (springLoop coach_type secondary_type spring_types)
  simp only [get_spring_counts, hcoil, if_true]
  exact h

/-- Witness for C1: with an empty master table and secondary type "COIL",
both entries are present with quantity 2. -/
theorem coil_config_contains_secondary_witness :
    dictGet "Secondary Outer" (get_spring_counts "X" "COIL" []) = some 2 ∧
    dictGet "Secondary Inner" (get_spring_counts "X" "COIL" []) = some 2 := by
  have h := coil_config_contains_secondary "X" "COIL" [] (by decide)
  refine ⟨?_, ?_⟩
  · rw [h.1]; decide
  · rw [h.2]; decide

/-- Counterexample to C2 as stated: the secondary type "AIR COIL" contains
"AIR", the master table is empty (so no coach-type-specific master data
forces anything), yet the resolved configuration contains a position name
containing "secondary" case-insensitively. -/
theorem air_secondary_counterexample :
    strContains (pyUpper (pyStrip "AIR COIL")) "AIR" ∧
    ∃ k ∈ keys (get_spring_counts "X" "AIR COIL" []), strContains (pyLower k) "secondary" := by
  refine ⟨by decide, "Secondary Outer", by decide, by decide⟩

/-- Claim C2 (amended): if the trimmed upper-cased secondary type contains
"AIR" and does not contain "COIL", then no position name in the resolved
configuration contains "secondary" case-insensitively. -/
theorem air_spring_config_no_secondary (coach_type secondary_type : String)
    (spring_types : List SpringTypeDef)
    (hair : strContains (pyUpper (pyStrip secondary_type)) "AIR")
    (hcoil : ¬ strContains (pyUpper (pyStrip secondary_type)) "COIL") :
    ∀ k ∈ keys (get_spring_counts coach_type secondary_type spring_types),
      ¬ strContains (pyLower k) "secondary" := by
  intro k hk
  simp only [get_spring_counts, hcoil, if_false] at hk
  exact foldl_springStep_keys_air coach_type (pyUpper (pyStrip secondary_type)) spring_types hair []
    (by simp [keys]) k hk

/-- Witness for the amended C2, at the spec's own end-to-end example:
coach type "VB", secondary type "Air Spring", master table with "Primary"
and "Secondary Outer"; the surviving key "Primary" does not contain
"secondary". -/
theorem air_spring_config_no_secondary_witness :
    ¬ strContains (pyLower "Primary") "secondary" :=
  air_spring_config_no_secondary "VB" "Air Spring"
    [⟨"Primary", ["VB"], some 4⟩, ⟨"Secondary Outer", ["VB"], some 2⟩]
    (by decide) (by decide) "Primary" (by decide)

/-- Counterexample to C7 as stated: with an empty master table every coach
type is unknown, yet secondary type "COIL" yields a non-empty
configuration. -/
theorem unknown_coach_coil_counterexample :
    get_spring_counts "X" "COIL" [] = [("Secondary Outer", 2), ("Secondary Inner", 2)] ∧
    get_spring_counts "X" "COIL" [] ≠ [] := by
  constructor <;> decide

/-- Claim C7 (amended): if the coach type appears in no master definition's
applicable coach types and the normalized secondary type does not contain
"COIL", the resolver returns the empty configuration. -/
theorem unknown_coach_type_empty_config (coach_type secondary_type : String)
    (spring_types : List SpringTypeDef)
    (hunknown : ∀ it ∈ spring_types, coach_type ∉ it.coach_types)
    (hcoil : ¬ strContains (pyUpper (pyStrip secondary_type)) "COIL") :
    get_spring_counts coach_type secondary_type spring_types = [] := by
  unfold get_spring_counts springLoop
  rw [foldl_springStep_unknown _ _ _ hunknown]
  simp [hcoil]

/-- Witness for the amended C7: a coach type absent from the master table
with an air-spring secondary type resolves to the empty configuration. -/
theorem unknown_coach_type_empty_config_witness :
    get_spring_counts "ZZ" "Air Spring" [⟨"Primary", ["VB"], some 4⟩] = [] :=
  unknown_coach_type_empty_config "ZZ" "Air Spring" [⟨"Primary", ["VB"], some 4⟩]
    (by decide) (by decide)

/-! ### Defect Aggregator: bogie partition (app.py lines 964-979) -/

/-- One raw failure row as consumed by the Generate Report handler:
`row['type_of_spring']`, `row.get('location_in_bogie', '')`,
`row['type_of_failure']`, `row['location']`, `row.get('bogie_number', '1')`
(absent bogie numbers modelled as `none`). -/
structure DefectRow where
  type_of_spring : String
  location_in_bogie : String
  type_of_failure : String
  location : String
  bogie_number : Option String
deriving DecidableEq

/-- The defect dict built for each row (app.py lines 968-973). -/
structure Defect where
  springType : String
  springNumber : String
  defectType : String
  location : String
deriving DecidableEq

def mkDefect (row : DefectRow) : Defect :=
  { springType := row.type_of_spring
    springNumber := row.location_in_bogie
    defectType := row.type_of_failure
    location := row.location }

/-- `str(row.get('bogie_number', '1')).strip() == '2'` (app.py lines 975-976). -/
def isBogie2 (row : DefectRow) : Bool :=
  pyStrip (row.bogie_number.getD "1") == "2"

/-- The bogie partition loop of the Generate Report handler (app.py lines
964-979): every row's defect goes to the bogie-2 list when the trimmed
bogie number equals "2" and to the bogie-1 list otherwise. -/
def partitionDefects (rows : List DefectRow) : List Defect × List Defect :=
  rows.foldl
    (fun acc row =>
      if isBogie2 row then (acc.1, acc.2 ++ [mkDefect row])
      else (acc.1 ++ [mkDefect row], acc.2))
    ([], [])

theorem partitionDefects_aux (rows : List DefectRow) (b1 b2 : List Defect) :
    rows.foldl
      (fun acc row =>
        if isBogie2 row then (acc.1, acc.2 ++ [mkDefect row])
        else (acc.1 ++ [mkDefect row], acc.2))
      (b1, b2) =
    (b1 ++ (rows.filter (fun r => !isBogie2 r)).map mkDefect,
     b2 ++ (rows.filter (fun r => isBogie2 r)).map mkDefect) := by
  induction rows generalizing b1 b2 with
  | nil => simp
  | cons r rows ih =>
    cases hb : isBogie2 r with
    | true => simp [List.foldl_cons, hb, ih, List.filter_cons]
    | false => simp [List.foldl_cons, hb, ih, List.filter_cons]

theorem length_filter_isBogie2 (rows : List DefectRow) :
    (rows.filter (fun r => !isBogie2 r)).length +
      (rows.filter (fun r => isBogie2 r)).length = rows.length := by
  induction rows with
  | nil => rfl
  | cons r rows ih =>
    cases hb : isBogie2 r <;> simp [List.filter_cons, hb] <;> omega

/-- Claim C3: the bogie partition is total and exclusive: the two lists'
lengths sum to the input length, the bogie-2 list consists exactly of the
defects of rows whose trimmed bogie number equals "2" (in order), and the
bogie-1 list of all the others (in order). -/
theorem partitionDefects_total_exclusive (rows : List DefectRow) :
    (partitionDefects rows).1.length + (partitionDefects rows).2.length = rows.length ∧
    (partitionDefects rows).1 = (rows.filter (fun r => !isBogie2 r)).map mkDefect ∧
    (partitionDefects rows).2 = (rows.filter (fun r => isBogie2 r)).map mkDefect := by
  unfold partitionDefects
  rw [partitionDefects_aux]
  refine ⟨?_, by simp, by simp⟩
  simp only [List.nil_append, List.length_map]
  exact length_filter_isBogie2 rows

/-! ### Inspection Checklist Builder (`build_default_inspection_rows`, app.py lines 167-175) -/

/-- One inspection activity as consumed by `build_default_inspection_rows`:
`act.get("id")` and `act.get("activity_text", "")`. -/
structure InspectionActivity where
  id : String
  activity_text : String
deriving DecidableEq

/-- The key normalization used throughout the app:
`stype.lower().replace(" ", "")`. -/
def normKey (s : String) : String :=
  String.mk ((pyLower s).data.filter (fun c => c != ' '))

/-- One checklist row (app.py lines 170-173): the flat Python dict holding
`activity_id`, `activity` and `remarks` alongside one key per spring
position, each initialized to `default_value`. -/
def buildRow (act : InspectionActivity) (spring_counts : List (String × Int))
    (default_value : String) : List (String × String) :=
  spring_counts.foldl (fun r p => dictSet r (normKey p.1) default_value)
    [("activity_id", act.id), ("activity", act.activity_text), ("remarks", "")]

/-- `build_default_inspection_rows` (app.py lines 167-175). -/
def build_default_inspection_rows (activities : List InspectionActivity)
    (spring_counts : List (String × Int)) (default_value : String) :
    List (List (String × String)) :=
  activities.map (fun act => buildRow act spring_counts default_value)

/-! ### Lemmas about repeated insertion with a constant value -/

theorem foldl_dictSet_lookup_not_mem (dv : String) (ks : List String)
    (init : List (String × String)) (k : String) (h : ¬ ∃ k' ∈ ks, k' = k) :
    dictGet k (ks.foldl (fun r k' => dictSet r k' dv) init) = dictGet k init := by
  induction ks generalizing init with
  | nil => rfl
  | cons a t ih =>
    rw [List.foldl_cons]
    have ha : k ≠ a := by
      intro he
      exact h ⟨a, by simp, he.symm⟩
    rw [ih (dictSet init a dv) (fun ⟨k', hk', he⟩ => h ⟨k', by simp [hk'], he⟩)]
    exact dictGet_dictSet_ne init a k dv ha

theorem foldl_dictSet_lookup_mem (dv : String) (ks : List String)
    (init : List (String × String)) (k : String) (h : ∃ k' ∈ ks, k' = k) :
    dictGet k (ks.foldl (fun r k' => dictSet r k' dv) init) = some dv := by
  induction ks generalizing init with
  | nil => simp at h
  | cons a t ih =>
    rw [List.foldl_cons]
    by_cases hm : ∃ k' ∈ t, k' = k
    · exact ih (dictSet init a dv) hm
    · have ha : a = k := by
        rcases h with ⟨k', hk', he⟩
        rcases List.mem_cons.mp hk' with h1 | h1
        · rw [← h1]; exact he
        · exact absurd ⟨k', h1, he⟩ hm
      subst ha
      rw [foldl_dictSet_lookup_not_mem dv t (dictSet init a dv) a hm]
      exact dictGet_dictSet_self init a dv

theorem foldl_dictSet_mem_keys (dv : String) (ks : List String)
    (init : List (String × String)) (k : String) :
    k ∈ keys (ks.foldl (fun r k' => dictSet r k' dv) init) ↔ k ∈ keys init ∨ k ∈ ks := by
  induction ks generalizing init with
  | nil => simp
  | cons a t ih =>
    rw [List.foldl_cons, ih]
    rw [mem_keys_dictSet_iff]
    constructor
    · rintro ((h | h) | h)
      · exact Or.inl h
      · exact Or.inr (by simp [h])
      · exact Or.inr (by simp [h])
    · rintro (h | h)
      · exact Or.inl (Or.inl h)
      · rcases List.mem_cons.mp h with h1 | h1
        · exact Or.inl (Or.inr h1)
        · exact Or.inr h1

theorem foldl_dictSet_length_le (dv : String) (ks : List String)
    (init : List (String × String)) :
    (ks.foldl (fun r k' => dictSet r k' dv) init).length ≤ init.length + ks.length := by
  induction ks generalizing init with
  | nil => simp
  | cons a t ih =>
    rw [List.foldl_cons]
    calc (t.foldl (fun r k' => dictSet r k' dv) (dictSet init a dv)).length
        ≤ (dictSet init a dv).length + t.length := ih (dictSet init a dv)
      _ ≤ init.length + 1 + t.length := by
          by_cases hm : a ∈ keys init
          · rw [length_dictSet_of_mem dv hm]; omega
          · rw [length_dictSet_of_not_mem dv hm]
      _ = init.length + (t.length + 1) := by omega
      _ = init.length + (a :: t).length := by simp

theorem foldl_dictSet_length_iff (dv : String) (ks : List String)
    (init : List (String × String)) :
    (ks.foldl (fun r k' => dictSet r k' dv) init).length = init.length + ks.length ↔
      ks.Nodup ∧ ∀ k ∈ ks, k ∉ keys init := by
  induction ks generalizing init with
  | nil => simp
  | cons a t ih =>
    rw [List.foldl_cons]
    by_cases hm : a ∈ keys init
    · constructor
      · intro h
        exfalso
        have hle := foldl_dictSet_length_le dv t (dictSet init a dv)
        rw [length_dictSet_of_mem dv hm, h, List.length_cons] at hle
        omega
      · rintro ⟨-, hall⟩
        exact absurd hm (hall a (by simp))
    · have harith : init.length + (a :: t).length = (dictSet init a dv).length + t.length := by
        rw [length_dictSet_of_not_mem dv hm, List.length_cons]
        omega
      rw [harith, ih (dictSet init a dv)]
      constructor
      · rintro ⟨hnd, hall⟩
        have hat : a ∉ t := by
          intro hat
          have h2 := hall a hat
          rw [keys_dictSet_of_not_mem dv hm] at h2
          exact h2 (by simp)
        refine ⟨List.nodup_cons.mpr ⟨hat, hnd⟩, ?_⟩
        intro k hk
        rcases List.mem_cons.mp hk with h1 | h1
        · rw [h1]; exact hm
        · have h2 := hall k h1
          rw [keys_dictSet_of_not_mem dv hm] at h2
          intro hki
          exact h2 (by simp [hki])
      · rintro ⟨hnd, hall⟩
        refine ⟨(List.nodup_cons.mp hnd).2, ?_⟩
        intro k hk
        rw [keys_dictSet_of_not_mem dv hm]
        intro hki
        rcases List.mem_append.mp hki with h1 | h1
        · exact hall k (by simp [hk]) h1
        · simp at h1
          subst h1
          exact (List.nodup_cons.mp hnd).1 hk

theorem buildRow_eq (act : InspectionActivity) (spring_counts : List (String × Int))
    (default_value : String) :
    buildRow act spring_counts default_value =
      (spring_counts.map (fun p => normKey p.1)).foldl
        (fun r k => dictSet r k default_value)
        [("activity_id", act.id), ("activity", act.activity_text), ("remarks", "")] := by
  rw [List.foldl_map]
  rfl

/-! ### Claims C5 and C10 -/

/-- Counterexample to C5 as stated: a spring position named "Remarks"
normalizes to the key "remarks", so the built row's `remarks` field holds
the default status instead of the empty string. -/
theorem build_rows_remarks_counterexample :
    dictGet "remarks"
        ((build_default_inspection_rows [⟨"1", "Check springs"⟩] [("Remarks", 4)]
          "Satisfactory").headD []) ≠ some "" := by
  decide

/-- Claim C5 (amended): provided no normalized spring-position key collides
with the fixed field names "activity", "remarks", "activity_id", the builder
returns one row per activity in input order, each with empty remarks, the
activity text and id in place, every normalized position key initialized to
the default status, and the row's non-field keys exactly the normalized
position keys. -/
theorem build_rows_spec (activities : List InspectionActivity)
    (spring_counts : List (String × Int)) (default_value : String)
    (hdisj : ∀ p ∈ spring_counts,
      normKey p.1 ≠ "activity" ∧ normKey p.1 ≠ "remarks" ∧ normKey p.1 ≠ "activity_id") :
    build_default_inspection_rows activities spring_counts default_value =
      activities.map (fun act => buildRow act spring_counts default_value) ∧
    ∀ act : InspectionActivity,
      dictGet "activity" (buildRow act spring_counts default_value) = some act.activity_text ∧
      dictGet "remarks" (buildRow act spring_counts default_value) = some "" ∧
      dictGet "activity_id" (buildRow act spring_counts default_value) = some act.id ∧
      (∀ p ∈ spring_counts,
        dictGet (normKey p.1) (buildRow act spring_counts default_value) = some default_value) ∧
      (∀ k : String,
        (k ∈ keys (buildRow act spring_counts default_value) ∧
          k ≠ "activity" ∧ k ≠ "remarks" ∧ k ≠ "activity_id") ↔
        ∃ p ∈ spring_counts, normKey p.1 = k) := by
  refine ⟨rfl, ?_⟩
  intro act
  have hnotin : ∀ f : String,
      (∀ p ∈ spring_counts, normKey p.1 ≠ f) →
      ¬ ∃ k' ∈ spring_counts.map (fun p => normKey p.1), k' = f := by
    rintro f hf ⟨k', hk', he⟩
    rcases List.mem_map.mp hk' with ⟨p, hp, hpe⟩
    exact hf p hp (hpe.trans he)
  have hact : dictGet "activity" (buildRow act spring_counts default_value) =
      some act.activity_text := by
    rw [buildRow_eq]
    rw [foldl_dictSet_lookup_not_mem default_value _ _ _
      (hnotin "activity" (fun p hp => (hdisj p hp).1))]
    have hne : ("activity" : String) ≠ "activity_id" := by decide
    simp [dictGet, hne]
  have hrem : dictGet "remarks" (buildRow act spring_counts default_value) = some "" := by
    rw [buildRow_eq]
    rw [foldl_dictSet_lookup_not_mem default_value _ _ _
      (hnotin "remarks" (fun p hp => (hdisj p hp).2.1))]
    have hne1 : ("remarks" : String) ≠ "activity_id" := by decide
    have hne2 : ("remarks" : String) ≠ "activity" := by decide
    simp [dictGet, hne1, hne2]
  have hid : dictGet "activity_id" (buildRow act spring_counts default_value) = some act.id := by
    rw [buildRow_eq]
    rw [foldl_dictSet_lookup_not_mem default_value _ _ _
      (hnotin "activity_id" (fun p hp => (hdisj p hp).2.2))]
    simp [dictGet]
  refine ⟨hact, hrem, hid, ?_, ?_⟩
  · intro p hp
    rw [buildRow_eq]
    exact foldl_dictSet_lookup_mem default_value _ _ _
      ⟨normKey p.1, List.mem_map_of_mem _ hp, rfl⟩
  · intro k
    constructor
    · rintro ⟨hk, hka, hkr, hki⟩
      rw [buildRow_eq] at hk
      rcases (foldl_dictSet_mem_keys default_value _ _ k).mp hk with h | h
      · exfalso
        simp only [keys, List.map_cons, List.map_nil, List.mem_cons] at h
        rcases h with h | h | h | h
        · exact hki h
        · exact hka h
        · exact hkr h
        · simp at h
      · rcases List.mem_map.mp h with ⟨p, hp, he⟩
        exact ⟨p, hp, he⟩
    · rintro ⟨p, hp, he⟩
      have hk : k ∈ keys (buildRow act spring_counts default_value) := by
        rw [buildRow_eq]
        exact (foldl_dictSet_mem_keys default_value _ _ k).mpr
          (Or.inr (he ▸ List.mem_map_of_mem _ hp))
      refine ⟨hk, ?_, ?_, ?_⟩
      · rw [← he]; exact (hdisj p hp).1
      · rw [← he]; exact (hdisj p hp).2.1
      · rw [← he]; exact (hdisj p hp).2.2

/-- Witness for the amended C5: a single activity and the position
"Primary" yield a row with empty remarks and the normalized key set to the
default. -/
theorem build_rows_spec_witness :
    dictGet "remarks" (buildRow ⟨"1", "Check"⟩ [("Primary", 4)] "Satisfactory") = some "" ∧
    dictGet (normKey "Primary") (buildRow ⟨"1", "Check"⟩ [("Primary", 4)] "Satisfactory") =
      some "Satisfactory" := by
  have h := (build_rows_spec [⟨"1", "Check"⟩] [("Primary", 4)] "Satisfactory"
    (by decide)).2 ⟨"1", "Check"⟩
  exact ⟨h.2.1, h.2.2.2.1 ("Primary", 4) (by simp)⟩

/-- Claim C10: the builder stores spring-position answers in the same flat
record as the `activity_id`, `activity` and `remarks` fields; a position
whose normalized key equals one of those names overwrites the field with
the default status, and a row carries `3 + n` entries exactly when the `n`
normalized position keys are pairwise distinct and disjoint from the three
field names. -/
theorem build_rows_flat_dict_collisions (act : InspectionActivity)
    (spring_counts : List (String × Int)) (default_value : String) :
    (∀ activities : List InspectionActivity,
      build_default_inspection_rows activities spring_counts default_value =
        activities.map (fun a => buildRow a spring_counts default_value)) ∧
    (∀ f ∈ (["activity", "remarks", "activity_id"] : List String),
      (∃ p ∈ spring_counts, normKey p.1 = f) →
        dictGet f (buildRow act spring_counts default_value) = some default_value) ∧
    ((buildRow act spring_counts default_value).length = 3 + spring_counts.length ↔
      (spring_counts.map (fun p => normKey p.1)).Nodup ∧
      ∀ p ∈ spring_counts,
        normKey p.1 ∉ (["activity_id", "activity", "remarks"] : List String)) := by
  refine ⟨fun _ => rfl, ?_, ?_⟩
  · rintro f hf ⟨p, hp, he⟩
    rw [buildRow_eq]
    exact foldl_dictSet_lookup_mem default_value _ _ f
      ⟨normKey p.1, List.mem_map_of_mem _ hp, he⟩
  · rw [buildRow_eq]
    have h := foldl_dictSet_length_iff default_value
      (spring_counts.map (fun p => normKey p.1))
      [("activity_id", act.id), ("activity", act.activity_text), ("remarks", "")]
    simp only [List.length_map, List.length_cons, List.length_nil] at h
    rw [h]
    constructor
    · rintro ⟨hnd, hall⟩
      exact ⟨hnd, fun p hp => hall (normKey p.1) (List.mem_map_of_mem _ hp)⟩
    · rintro ⟨hnd, hall⟩
      refine ⟨hnd, ?_⟩
      intro k hk
      rcases List.mem_map.mp hk with ⟨p, hp, he⟩
      rw [← he]
      exact hall p hp

/-- Witness for C10: the position "Re Marks" normalizes to "remarks" and
overwrites the remarks field with the default; two distinct collision-free
positions give a row of 3 + 2 entries. -/
theorem build_rows_flat_dict_collisions_witness :
    dictGet "remarks" (buildRow ⟨"7", "Check"⟩ [("Re Marks", 1)] "Done") = some "Done" ∧
    (buildRow ⟨"7", "Check"⟩ [("Outer", 4), ("Inner", 2)] "Done").length = 3 + 2 := by
  have h1 := (build_rows_flat_dict_collisions ⟨"7", "Check"⟩ [("Re Marks", 1)] "Done").2.1
    "remarks" (by decide) ⟨("Re Marks", 1), by simp, by decide⟩
  have h2 := (build_rows_flat_dict_collisions ⟨"7", "Check"⟩ [("Outer", 4), ("Inner", 2)]
    "Done").2.2.mpr ⟨by decide, by decide⟩
  exact ⟨h1, h2⟩

/-! ### Checklist finalize merge (`clean_inspections`, app.py lines 981-995) -/

/-- Python's `k in ("activity", "remarks", "activity_id")` from
`clean_inspections` (app.py line 988). -/
def isProtectedKey (k : String) : Prop :=
  k = "activity" ∨ k = "remarks" ∨ k = "activity_id"

instance decIsProtectedKey (k : String) : Decidable (isProtectedKey k) := by
  unfold isProtectedKey
  infer_instance

/-- The per-record cell cleaning inside `clean_inspections` (app.py lines
986-989): an empty value at a key outside `("activity", "remarks",
"activity_id")` is replaced by the default. -/
def cleanRecord (default_val : String) (r : List (String × String)) : List (String × String) :=
  r.map (fun kv =>
    if kv.2 = "" ∧ ¬ isProtectedKey kv.1 then (kv.1, default_val) else kv)

theorem cleanRecord_cons (default_val : String) (kv : String × String)
    (t : List (String × String)) :
    cleanRecord default_val (kv :: t) =
      (if kv.2 = "" ∧ ¬ isProtectedKey kv.1 then (kv.1, default_val) else kv) ::
        cleanRecord default_val t := rfl

/-- `clean_inspections` (app.py lines 981-990): `None` editor data yields
`[]`; otherwise each record is cleaned cell-wise. The upstream
`fillna("")` is modelled by the records holding strings. -/
def clean_inspections (editor_df : Option (List (List (String × String))))
    (default_val : String) : List (List (String × String)) :=
  match editor_df with
  | none => []
  | some recs => recs.map (cleanRecord default_val)

theorem dictGet_cleanRecord (dv : String) (r : List (String × String)) (k : String) :
    dictGet k (cleanRecord dv r) =
      (dictGet k r).map (fun x => if x = "" ∧ ¬ isProtectedKey k then dv else x) := by
  induction r with
  | nil => simp [cleanRecord, dictGet]
  | cons kv t ih =>
    obtain ⟨k0, v0⟩ := kv
    rw [cleanRecord_cons]
    by_cases hk : k = k0
    · subst hk
      by_cases hc : v0 = "" ∧ ¬ isProtectedKey k
      · simp [dictGet, hc]
      · simp [dictGet, hc]
    · by_cases hc : v0 = "" ∧ ¬ isProtectedKey k0
      · simp [dictGet, hc, hk, ih]
      · simp [dictGet, hc, hk, ih]

/-- Claim C6: at finalize time the merge rule maps every empty-valued
spring-position cell to the kind-specific default ("Satisfactory" for
visual rows, "Done" for must-do rows, as instantiated by the call sites of
`clean_inspections`), preserves non-empty edited values verbatim, and never
replaces the `activity`, `remarks` or `activity_id` fields. -/
theorem clean_inspections_merge_rule (recs : List (List (String × String)))
    (r : List (String × String)) (hr : r ∈ recs) (k : String) :
    (cleanRecord "Satisfactory" r ∈ clean_inspections (some recs) "Satisfactory") ∧
    (cleanRecord "Done" r ∈ clean_inspections (some recs) "Done") ∧
    ∀ default_val : String,
      (isProtectedKey k →
        dictGet k (cleanRecord default_val r) = dictGet k r) ∧
      (¬ isProtectedKey k →
        (dictGet k r = some "" → dictGet k (cleanRecord default_val r) = some default_val) ∧
        (∀ x : String, x ≠ "" → dictGet k r = some x →
          dictGet k (cleanRecord default_val r) = some x)) := by
  refine ⟨List.mem_map_of_mem _ hr, List.mem_map_of_mem _ hr, ?_⟩
  intro dv
  constructor
  · intro hkF
    rw [dictGet_cleanRecord]
    cases hg : dictGet k r with
    | none => rfl
    | some x => simp [hkF]
  · intro hkF
    constructor
    · intro hg
      rw [dictGet_cleanRecord, hg]
      simp [hkF]
    · intro x hx hg
      rw [dictGet_cleanRecord, hg]
      simp [hx]

/-- Witness for C6: an empty spring cell reverts to the default while an
untouched empty remarks field stays empty. -/
theorem clean_inspections_merge_rule_witness :
    dictGet "primary"
        (cleanRecord "Satisfactory" [("activity", "Check"), ("primary", ""), ("remarks", "")]) =
      some "Satisfactory" ∧
    dictGet "remarks"
        (cleanRecord "Done" [("activity", "Check"), ("primary", "Not Done"), ("remarks", "")]) =
      some "" := by
  have h1 := ((clean_inspections_merge_rule
    [[("activity", "Check"), ("primary", ""), ("remarks", "")]]
    [("activity", "Check"), ("primary", ""), ("remarks", "")] (by simp)
    "primary").2.2 "Satisfactory").2 (by decide)
  have h2 := ((clean_inspections_merge_rule
    [[("activity", "Check"), ("primary", "Not Done"), ("remarks", "")]]
    [("activity", "Check"), ("primary", "Not Done"), ("remarks", "")] (by simp)
    "remarks").2.2 "Done").1 (by decide)
  refine ⟨h1.1 (by decide), ?_⟩
  rw [h2]
  decide

/-! ### Date/Text Normalizer (`normalize_sig_date`, app.py lines 177-191)

`datetime.fromisoformat` is Python standard library, not repository code; it
is modelled here after CPython's documented pre-3.11 grammar for naive
datetimes — `YYYY-MM-DD[*HH[:MM[:SS[.fff[fff]]]]]` with any single
separator character — without timezone offsets. `datetime.isoformat()` /
`date.isoformat()` are modelled by the corresponding serializers. -/

def digitVal (c : Char) : Nat := c.toNat - 48

def parse2 (a b : Char) : Option Nat :=
  if a.isDigit ∧ b.isDigit then some (10 * digitVal a + digitVal b) else none

def parse4 (a b c d : Char) : Option Nat :=
  if a.isDigit ∧ b.isDigit ∧ c.isDigit ∧ d.isDigit then
    some (1000 * digitVal a + 100 * digitVal b + 10 * digitVal c + digitVal d)
  else none

def isLeapYear (y : Nat) : Bool :=
  decide (y % 4 = 0 ∧ (y % 100 ≠ 0 ∨ y % 400 = 0))

def daysInMonth (y m : Nat) : Nat :=
  if m = 2 then (if isLeapYear y then 29 else 28)
  else if m = 4 ∨ m = 6 ∨ m = 9 ∨ m = 11 then 30
  else 31

/-- The `YYYY-MM-DD` date part of `fromisoformat`, with `datetime.date`'s
range validation. -/
def parseDate10 (cs : List Char) : Option (Nat × Nat × Nat) :=
  match cs with
  | [y1, y2, y3, y4, s1, m1, m2, s2, d1, d2] =>
    if s1 = '-' ∧ s2 = '-' then
      match parse4 y1 y2 y3 y4, parse2 m1 m2, parse2 d1 d2 with
      | some y, some m, some d =>
        if 1 ≤ y ∧ 1 ≤ m ∧ m ≤ 12 ∧ 1 ≤ d ∧ d ≤ daysInMonth y m then some (y, m, d)
        else none
      | _, _, _ => none
    else none
  | _ => none

def digitsToNat (cs : List Char) : Nat :=
  cs.foldl (fun a c => 10 * a + digitVal c) 0

/-- Fractional seconds: exactly 3 or 6 digits (milli- or microseconds). -/
def parseFrac (cs : List Char) : Option Nat :=
  if cs.all Char.isDigit then
    if cs.length = 3 then some (1000 * digitsToNat cs)
    else if cs.length = 6 then some (digitsToNat cs)
    else none
  else none

/-- The `HH[:MM[:SS[.fff[fff]]]]` time part of `fromisoformat`, with
`datetime.time`'s range validation. Returns (hour, minute, second,
microsecond). -/
def parseTime (cs : List Char) : Option (Nat × Nat × Nat × Nat) :=
  match cs with
  | [h1, h2] =>
    match parse2 h1 h2 with
    | some h => if h < 24 then some (h, 0, 0, 0) else none
    | none => none
  | [h1, h2, c1, m1, m2] =>
    if c1 = ':' then
      match parse2 h1 h2, parse2 m1 m2 with
      | some h, some m => if h < 24 ∧ m < 60 then some (h, m, 0, 0) else none
      | _, _ => none
    else none
  | [h1, h2, c1, m1, m2, c2, s1, s2] =>
    if c1 = ':' ∧ c2 = ':' then
      match parse2 h1 h2, parse2 m1 m2, parse2 s1 s2 with
      | some h, some m, some s => if h < 24 ∧ m < 60 ∧ s < 60 then some (h, m, s, 0) else none
      | _, _, _ => none
    else none
  | h1 :: h2 :: c1 :: m1 :: m2 :: c2 :: s1 :: s2 :: c3 :: frac =>
    if c1 = ':' ∧ c2 = ':' ∧ c3 = '.' then
      match parse2 h1 h2, parse2 m1 m2, parse2 s1 s2, parseFrac frac with
      | some h, some m, some s, some us =>
        if h < 24 ∧ m < 60 ∧ s < 60 then some (h, m, s, us) else none
      | _, _, _, _ => none
    else none
  | _ => none

/-- A naive `datetime.datetime` value. -/
structure PyDateTime where
  year : Nat
  month : Nat
  day : Nat
  hour : Nat
  minute : Nat
  second : Nat
  microsecond : Nat
deriving DecidableEq

/-- `datetime.fromisoformat` (pre-3.11 grammar, naive datetimes): a
`YYYY-MM-DD` date, optionally followed by one separator character and a
time; anything else fails. -/
def pyFromIsoformat (s : String) : Option PyDateTime :=
  match s.data with
  | y1 :: y2 :: y3 :: y4 :: s1 :: m1 :: m2 :: s2 :: d1 :: d2 :: rest =>
    match parseDate10 [y1, y2, y3, y4, s1, m1, m2, s2, d1, d2] with
    | none => none
    | some (y, m, d) =>
      match rest with
      | [] => some ⟨y, m, d, 0, 0, 0, 0⟩
      | _ :: timeCs =>
        match parseTime timeCs with
        | none => none
        | some (h, mi, sec, us) => some ⟨y, m, d, h, mi, sec, us⟩
  | _ => none

def padZeros (w n : Nat) : String :=
  let s := toString n
  String.mk (List.replicate (w - s.length) '0') ++ s

/-- `date.isoformat()`: `YYYY-MM-DD`. -/
def isoDateStr (y m d : Nat) : String :=
  padZeros 4 y ++ "-" ++ padZeros 2 m ++ "-" ++ padZeros 2 d

/-- `datetime.isoformat()` for a naive datetime: `YYYY-MM-DDTHH:MM:SS`,
with `.ffffff` appended exactly when the microsecond field is nonzero. -/
def isoDateTimeStr (dt : PyDateTime) : String :=
  isoDateStr dt.year dt.month dt.day ++ "T" ++ padZeros 2 dt.hour ++ ":" ++
    padZeros 2 dt.minute ++ ":" ++ padZeros 2 dt.second ++
    (if dt.microsecond = 0 then "" else "." ++ padZeros 6 dt.microsecond)

/-- `normalize_sig_date` (app.py lines 177-191). -/
def normalize_sig_date (text : Option String) : Option String :=
  match text with
  | none => none
  | some text =>
    let t := pyStrip text
    if t = "" then none
    else if t.length = 10 then
      match pyFromIsoformat t with
      | some dt => some (isoDateStr dt.year dt.month dt.day)
      | none => some t
    else
      match pyFromIsoformat t with
      | some dt => some (isoDateTimeStr dt)
      | none => some t

/-- Claim C4: `normalize_sig_date` never raises: absent input and
whitespace-only input yield `none`; a trimmed 10-character input that
parses as a date yields the ISO calendar date; a longer parseable input
yields the full ISO datetime; and any input whose trimmed form fails to
parse passes through unchanged. -/
theorem normalize_sig_date_spec :
    normalize_sig_date none = none ∧
    ∀ s : String,
      (pyStrip s = "" → normalize_sig_date (some s) = none) ∧
      (∀ dt : PyDateTime, (pyStrip s).length = 10 →
        pyFromIsoformat (pyStrip s) = some dt →
        normalize_sig_date (some s) = some (isoDateStr dt.year dt.month dt.day)) ∧
      (∀ dt : PyDateTime, 10 < (pyStrip s).length →
        pyFromIsoformat (pyStrip s) = some dt →
        normalize_sig_date (some s) = some (isoDateTimeStr dt)) ∧
      (pyStrip s ≠ "" → pyFromIsoformat (pyStrip s) = none →
        normalize_sig_date (some s) = some (pyStrip s)) := by
  refine ⟨rfl, ?_⟩
  intro s
  refine ⟨?_, ?_, ?_, ?_⟩
  · intro h
    simp [normalize_sig_date, h]
  · intro dt h10 hp
    have hne : pyStrip s ≠ "" := by
      intro he
      rw [he] at h10
      simp at h10
    simp [normalize_sig_date, hne, h10, hp]
  · intro dt hgt hp
    have hne : pyStrip s ≠ "" := by
      intro he
      rw [he] at hgt
      simp at hgt
    have h10 : ¬ (pyStrip s).length = 10 := by omega
    simp [normalize_sig_date, hne, h10, hp]
  · intro hne hp
    by_cases h10 : (pyStrip s).length = 10
    · simp [normalize_sig_date, hne, h10, hp]
    · simp [normalize_sig_date, hne, h10, hp]

/-- Witness for C4 at the spec's examples: a plain date round-trips, junk
passes through, whitespace collapses to `none`, and a longer parseable
value becomes a full ISO datetime. -/
theorem normalize_sig_date_spec_witness :
    normalize_sig_date (some "2024-01-15") = some "2024-01-15" ∧
    normalize_sig_date (some "not-a-date") = some "not-a-date" ∧
    normalize_sig_date (some "   ") = none ∧
    normalize_sig_date (some "2024-01-15 10:30:00") = some "2024-01-15T10:30:00" := by
  have h := normalize_sig_date_spec
  refine ⟨?_, ?_, ?_, ?_⟩
  · have h2 := (h.2 "2024-01-15").2.1 ⟨2024, 1, 15, 0, 0, 0, 0⟩ (by decide) (by decide)
    rw [h2]
    decide
  · exact (h.2 "not-a-date").2.2.2 (by decide) (by decide)
  · exact (h.2 "   ").1 (by decide)
  · have h2 := (h.2 "2024-01-15 10:30:00").2.2.1 ⟨2024, 1, 15, 10, 30, 0, 0⟩
      (by decide) (by decide)
    rw [h2]
    decide

/-! ### Report Document Assembler (`generate_inspection_pdf`, app.py lines 196-393)

The document is modelled as its flowable content (`story`): paragraphs with
their markup text, spacers, and tables of cells. Layout attributes (column
widths, styles, colors, page size) and the final `doc.build` serialization
to PDF bytes are rendering details outside the model. The fallible
`RLImage` constructor is a parameter `dec`, and the record fields consumed
by the renderer are strings (as built by the Generate Report handler), so
`_para`'s None/list/dict branches are not exercised. -/

inductive Cell where
  | text : String → Cell
  | img : List Nat → Cell
deriving DecidableEq

inductive Elem where
  | para : String → Elem
  | spacer : Elem
  | table : List (List Cell) → Elem
deriving DecidableEq

/-- `html.escape` on one character (quote=True: escapes `&`, `<`, `>`,
double quote and apostrophe). -/
def escChar (c : Char) : List Char :=
  if c = '&' then "&amp;".data
  else if c = '<' then "&lt;".data
  else if c = '>' then "&gt;".data
  else if c = '"' then "&quot;".data
  else if c.toNat = 39 then "&#x27;".data
  else [c]

/-- `html.escape` (app.py line 202). -/
def htmlEscape (s : String) : String :=
  String.mk (s.data.foldr (fun c acc => escChar c ++ acc) [])

/-- `text.replace("\n", "<br/>")` (app.py line 203). -/
def replaceNewlines (s : String) : String :=
  String.mk (s.data.foldr (fun c acc => if c = '\n' then "<br/>".data ++ acc else c :: acc) [])

/-- `_para` (app.py lines 196-204) on a string input: escape and break
lines; the resulting markup string is the paragraph content. -/
def paraText (t : String) : String :=
  replaceNewlines (htmlEscape t)

def paraCell (t : String) : Cell :=
  Cell.text (paraText t)

/-- Python `s[:n]` on a string. -/
def strTake (s : String) (n : Nat) : String :=
  String.mk (s.data.take n)

/-- The record consumed by `generate_inspection_pdf`, as assembled by the
Generate Report handler (app.py lines 1007-1028); the `_sig_*` keys are the
`sig_*` fields here. -/
structure ReportRecord where
  coach_number : String
  coach_code : String
  coach_type : String
  secondary_type : String
  bogie1_number : String
  bogie2_number : String
  date_of_receipt : String
  inspector_name : String
  spring_counts : List (String × Int)
  bogie1_inspections : List (List (String × String))
  bogie2_inspections : List (List (String × String))
  bogie1_must_do : List (List (String × String))
  bogie2_must_do : List (List (String × String))
  bogie1_defects : List Defect
  bogie2_defects : List Defect
  sig_shop_name : Option String
  sig_ins_name : Option String
  sig_shop_date : Option String
  sig_ins_date : Option String

/-- The coach identity grid (app.py lines 227-236). -/
def coachInfoRows (r : ReportRecord) : List (List Cell) :=
  [[paraCell "Coach Number:", paraCell r.coach_number,
    paraCell "Coach Code:", paraCell r.coach_code],
   [paraCell "Coach Type:", paraCell r.coach_type,
    paraCell "Secondary Type:", paraCell r.secondary_type],
   [paraCell "Bogie 1 No.:", paraCell r.bogie1_number,
    paraCell "Bogie 2 No.:", paraCell r.bogie2_number],
   [paraCell "Date of Receipt:", paraCell (strTake r.date_of_receipt 10),
    paraCell "Inspector:", paraCell r.inspector_name]]

/-- The Spring Configuration section (app.py lines 247-260), omitted when
the configuration is empty. -/
def springConfigSection (spring_counts : List (String × Int)) : List Elem :=
  if spring_counts = [] then []
  else
    [Elem.para "Spring Configuration",
     Elem.table ([paraCell "Spring Type", paraCell "Qty / Bogie"] ::
       spring_counts.map (fun p => [paraCell p.1, paraCell (toString p.2 ++ " per bogie")])),
     Elem.spacer]

/-- The defect-count markup line (app.py line 268). -/
def defectsSummaryLine (n1 n2 : Nat) : String :=
  "Bogie1: <b>" ++ toString n1 ++ "</b>  &nbsp;&nbsp; Bogie2: <b>" ++ toString n2 ++
    "</b>  &nbsp;&nbsp; Total: <b>" ++ toString (n1 + n2) ++ "</b>"

def defectsHeaderRow : List Cell :=
  [paraCell "Bogie", paraCell "Spring Type", paraCell "Spring No.",
   paraCell "Defect Type", paraCell "Location"]

/-- One row of the combined defects table (app.py lines 272-291): the
display name is `defect_code_to_name.get(defect_code, defect_code)`. -/
def defectTableRow (bogieLabel : String) (defect_code_to_name : List (String × String))
    (d : Defect) : List Cell :=
  [paraCell bogieLabel, paraCell d.springType, paraCell d.springNumber,
   paraCell ((dictGet d.defectType defect_code_to_name).getD d.defectType),
   paraCell d.location]

/-- `defects_combined`: all bogie-1 rows, then all bogie-2 rows. -/
def defectsCombined (r : ReportRecord) (defect_code_to_name : List (String × String)) :
    List (List Cell) :=
  r.bogie1_defects.map (defectTableRow r.bogie1_number defect_code_to_name) ++
    r.bogie2_defects.map (defectTableRow r.bogie2_number defect_code_to_name)

/-- The Defects Summary section (app.py lines 267-307): heading, counts
line, then either the combined table or the no-defects notice. -/
def defectsSummarySection (r : ReportRecord) (defect_code_to_name : List (String × String)) :
    List Elem :=
  [Elem.para "Defects Summary",
   Elem.para (defectsSummaryLine r.bogie1_defects.length r.bogie2_defects.length),
   Elem.spacer] ++
  (if defectsCombined r defect_code_to_name = []
   then [Elem.para "<i>No defects reported.</i>"]
   else [Elem.table (defectsHeaderRow :: defectsCombined r defect_code_to_name)])

/-- `render_inspection_table` (app.py lines 311-339): title, then a table
whose header is Activity, the position names, Remarks, and whose body reads
each activity's cells through the normalized position keys. -/
def renderInspectionTable (title : String) (activities : List (List (String × String)))
    (scounts : List (String × Int)) : List Elem :=
  [Elem.para title,
   Elem.table ((("Activity" :: (scounts.map (·.1) ++ ["Remarks"])).map paraCell) ::
     activities.map (fun act =>
       paraCell ((dictGet "activity" act).getD "") ::
         (scounts.map (fun p => paraCell ((dictGet (normKey p.1) act).getD "")) ++
           [paraCell ((dictGet "remarks" act).getD "")]))),
   Elem.spacer]

/-- `record.get(...) or "__________________"` for the signature block. -/
def placeholderOr (o : Option String) : String :=
  match o with
  | none => "__________________"
  | some s => if s = "" then "__________________" else s

/-- The signatures text block (app.py lines 353-364). -/
def signatureRows (r : ReportRecord) : List (List Cell) :=
  [[paraCell "Prepared By (SSE SPRING SHOP)", paraCell "",
    paraCell "Checked By (SSE / INSPECTION)", paraCell ""],
   [paraCell "Name & Signature:", paraCell (placeholderOr r.sig_shop_name),
    paraCell "Name & Signature:", paraCell (placeholderOr r.sig_ins_name)],
   [paraCell "Date:", paraCell (placeholderOr r.sig_shop_date),
    paraCell "Date:", paraCell (placeholderOr r.sig_ins_date)]]

/-- The whole story up to and including the signatures text table (app.py
lines 223-369). -/
def mainStory (r : ReportRecord) (defect_code_to_name : List (String × String)) : List Elem :=
  [Elem.para "SPRING INSPECTION REPORT", Elem.spacer,
   Elem.table (coachInfoRows r), Elem.spacer] ++
  springConfigSection r.spring_counts ++
  defectsSummarySection r defect_code_to_name ++
  [Elem.spacer] ++
  renderInspectionTable "Visual Inspection - Bogie 1" r.bogie1_inspections r.spring_counts ++
  renderInspectionTable "Visual Inspection - Bogie 2" r.bogie2_inspections r.spring_counts ++
  renderInspectionTable "Must Do - Bogie 1" r.bogie1_must_do r.spring_counts ++
  renderInspectionTable "Must Do - Bogie 2" r.bogie2_must_do r.spring_counts ++
  [Elem.spacer, Elem.para "Signatures", Elem.table (signatureRows r)]

def imgOrBlank : Option (List Nat) → Cell
  | none => paraCell ""
  | some im => Cell.img im

/-- Python truthiness of an optional byte string: `None` and `b""` are
falsy. -/
def bytesPresent : Option (List Nat) → Bool
  | none => false
  | some bytes => !bytes.isEmpty

/-- One `if sig_bytes: RLImage(BytesIO(sig_bytes), ...)` slot inside the
`try` block: falsy bytes leave the slot empty, truthy bytes go through the
fallible constructor. -/
def decodeSlot (b : Option (List Nat)) (dec : List Nat → Except String (List Nat)) :
    Except String (Option (List Nat)) :=
  match b with
  | none => Except.ok none
  | some bytes =>
    if bytes.isEmpty then Except.ok none
    else
      match dec bytes with
      | Except.ok im => Except.ok (some im)
      | Except.error e => Except.error e

/-- The body of the `try` block (app.py lines 373-387): build both image
cells (shop first), then the image row; any raised error aborts the whole
block. -/
def attemptImages (sig_shop_bytes sig_ins_bytes : Option (List Nat))
    (dec : List Nat → Except String (List Nat)) : Except String (List Cell) :=
  match decodeSlot sig_shop_bytes dec with
  | Except.error e => Except.error e
  | Except.ok c0 =>
    match decodeSlot sig_ins_bytes dec with
    | Except.error e => Except.error e
    | Except.ok c1 => Except.ok [imgOrBlank c0, paraCell "", imgOrBlank c1, paraCell ""]

/-- The signature-image block (app.py lines 371-389): only attempted when
at least one image is truthy; `except Exception: pass` drops the whole
block on failure. -/
def imageBlock (sig_shop_bytes sig_ins_bytes : Option (List Nat))
    (dec : List Nat → Except String (List Nat)) : List Elem :=
  if bytesPresent sig_shop_bytes || bytesPresent sig_ins_bytes then
    match attemptImages sig_shop_bytes sig_ins_bytes dec with
    | Except.ok row => [Elem.spacer, Elem.table [row]]
    | Except.error _ => []
  else []

/-- `generate_inspection_pdf` (app.py lines 206-393) at the story level:
the full flowable list handed to `doc.build`. -/
def generate_inspection_pdf_story (r : ReportRecord)
    (defect_code_to_name : List (String × String))
    (sig_shop_bytes sig_ins_bytes : Option (List Nat))
    (dec : List Nat → Except String (List Nat)) : List Elem :=
  mainStory r defect_code_to_name ++ imageBlock sig_shop_bytes sig_ins_bytes dec

/-! ### Lemmas about the story -/

theorem table_ne_of_head_cell_ne {c1 c2 : Cell} {r1 r2 : List Cell}
    {t1 t2 : List (List Cell)} (h : c1 ≠ c2) :
    Elem.table ((c1 :: r1) :: t1) ≠ Elem.table ((c2 :: r2) :: t2) := by
  intro he
  injection he with hrows
  injection hrows with hrow htail
  injection hrow with hc hrest
  exact h hc

theorem not_defects_table_mem_render (title : String)
    (activities : List (List (String × String))) (scounts : List (String × Int))
    (rows : List (List Cell)) :
    Elem.table (defectsHeaderRow :: rows) ∉ renderInspectionTable title activities scounts := by
  intro hmem
  simp only [renderInspectionTable, List.map_cons, List.mem_cons,
    List.not_mem_nil, or_false] at hmem
  rcases hmem with h | h | h
  · exact Elem.noConfusion h
  · exact table_ne_of_head_cell_ne (by decide) h
  · exact Elem.noConfusion h

theorem not_defects_table_mem_springcfg (spring_counts : List (String × Int))
    (rows : List (List Cell)) :
    Elem.table (defectsHeaderRow :: rows) ∉ springConfigSection spring_counts := by
  intro hmem
  unfold springConfigSection at hmem
  by_cases hsc : spring_counts = []
  · rw [if_pos hsc] at hmem
    simp at hmem
  · rw [if_neg hsc] at hmem
    simp only [List.mem_cons, List.not_mem_nil, or_false] at hmem
    rcases hmem with h | h | h
    · exact Elem.noConfusion h
    · exact table_ne_of_head_cell_ne (by decide) h
    · exact Elem.noConfusion h

theorem attemptImages_ok_shape {sig_shop_bytes sig_ins_bytes : Option (List Nat)}
    {dec : List Nat → Except String (List Nat)} {row : List Cell}
    (h : attemptImages sig_shop_bytes sig_ins_bytes dec = Except.ok row) :
    ∃ c0 c1, row = [imgOrBlank c0, paraCell "", imgOrBlank c1, paraCell ""] := by
  unfold attemptImages at h
  cases h0 : decodeSlot sig_shop_bytes dec with
  | error e => rw [h0] at h; exact absurd h (by simp)
  | ok c0 =>
    rw [h0] at h
    cases h1 : decodeSlot sig_ins_bytes dec with
    | error e => rw [h1] at h; exact absurd h (by simp)
    | ok c1 =>
      rw [h1] at h
      simp only [Except.ok.injEq] at h
      exact ⟨c0, c1, h.symm⟩

theorem not_defects_table_mem_imageblock (sig_shop_bytes sig_ins_bytes : Option (List Nat))
    (dec : List Nat → Except String (List Nat)) (rows : List (List Cell)) :
    Elem.table (defectsHeaderRow :: rows) ∉ imageBlock sig_shop_bytes sig_ins_bytes dec := by
  intro hmem
  unfold imageBlock at hmem
  by_cases hc : (bytesPresent sig_shop_bytes || bytesPresent sig_ins_bytes) = true
  · rw [if_pos hc] at hmem
    cases ha : attemptImages sig_shop_bytes sig_ins_bytes dec with
    | error e =>
      rw [ha] at hmem
      simp at hmem
    | ok row =>
      rw [ha] at hmem
      simp only [List.mem_cons, List.not_mem_nil, or_false] at hmem
      rcases hmem with h | h
      · exact Elem.noConfusion h
      · rcases attemptImages_ok_shape ha with ⟨c0, c1, hre⟩
        subst hre
        injection h with hrows
        injection hrows with hrow htail
        have hlen := congrArg List.length hrow
        simp [defectsHeaderRow] at hlen
  · rw [if_neg hc] at hmem
    simp at hmem

theorem not_defects_table_mem_defects_empty (r : ReportRecord)
    (defect_code_to_name : List (String × String)) (rows : List (List Cell))
    (h1 : r.bogie1_defects = []) (h2 : r.bogie2_defects = []) :
    Elem.table (defectsHeaderRow :: rows) ∉ defectsSummarySection r defect_code_to_name := by
  intro hmem
  have hcomb : defectsCombined r defect_code_to_name = [] := by
    simp [defectsCombined, h1, h2]
  unfold defectsSummarySection at hmem
  rw [if_pos hcomb] at hmem
  simp at hmem

/-! ### Claims C8 and C9 -/

/-- Claim C8: when at least one defect exists, the story contains the
combined defects table — header row, then every bogie-1 defect row, then
every bogie-2 defect row, with display names resolved through
`defect_code_to_name` (falling back to the raw code inside
`defectTableRow`); when no defects exist, the story contains the literal
no-defects notice and no table headed by the defects header row. -/
theorem defects_summary_spec (r : ReportRecord)
    (defect_code_to_name : List (String × String))
    (sig_shop_bytes sig_ins_bytes : Option (List Nat))
    (dec : List Nat → Except String (List Nat)) :
    ((r.bogie1_defects ≠ [] ∨ r.bogie2_defects ≠ []) →
      Elem.table (defectsHeaderRow :: defectsCombined r defect_code_to_name) ∈
        generate_inspection_pdf_story r defect_code_to_name sig_shop_bytes sig_ins_bytes dec) ∧
    (r.bogie1_defects = [] → r.bogie2_defects = [] →
      (Elem.para "<i>No defects reported.</i>" ∈
        generate_inspection_pdf_story r defect_code_to_name sig_shop_bytes sig_ins_bytes dec) ∧
      ∀ rows : List (List Cell),
        Elem.table (defectsHeaderRow :: rows) ∉
          generate_inspection_pdf_story r defect_code_to_name sig_shop_bytes sig_ins_bytes dec) := by
  constructor
  · intro hne
    have hcomb : defectsCombined r defect_code_to_name ≠ [] := by
      simp only [defectsCombined, ne_eq, List.append_eq_nil, List.map_eq_nil_iff, not_and]
      rcases hne with h | h
      · intro h1; exact absurd h1 h
      · intro _ h2; exact h h2
    have hsec : Elem.table (defectsHeaderRow :: defectsCombined r defect_code_to_name) ∈
        defectsSummarySection r defect_code_to_name := by
      unfold defectsSummarySection
      rw [if_neg hcomb]
      simp
    show _ ∈ mainStory r defect_code_to_name ++ imageBlock sig_shop_bytes sig_ins_bytes dec
    apply List.mem_append_left
    unfold mainStory
    simp only [List.mem_append]
    tauto
  · intro h1 h2
    have hcomb : defectsCombined r defect_code_to_name = [] := by
      simp [defectsCombined, h1, h2]
    constructor
    · have hsec : Elem.para "<i>No defects reported.</i>" ∈
          defectsSummarySection r defect_code_to_name := by
        unfold defectsSummarySection
        rw [if_pos hcomb]
        simp
      show _ ∈ mainStory r defect_code_to_name ++ imageBlock sig_shop_bytes sig_ins_bytes dec
      apply List.mem_append_left
      unfold mainStory
      simp only [List.mem_append]
      tauto
    · intro rows hmem
      rcases List.mem_append.mp hmem with hm | hm
      · unfold mainStory at hm
        simp only [List.mem_append] at hm
        rcases hm with ((((((((h1 | h2) | h3) | h4) | h5) | h6) | h7) | h8) | h9)
        · simp only [List.mem_cons, List.not_mem_nil, or_false] at h1
          rcases h1 with h | h | h | h
          · exact Elem.noConfusion h
          · exact Elem.noConfusion h
          · unfold defectsHeaderRow coachInfoRows at h
            exact table_ne_of_head_cell_ne (by decide) h
          · exact Elem.noConfusion h
        · exact not_defects_table_mem_springcfg _ _ h2
        · exact not_defects_table_mem_defects_empty r defect_code_to_name rows h1 h2 h3
        · simp only [List.mem_singleton] at h4
          exact Elem.noConfusion h4
        · exact not_defects_table_mem_render _ _ _ _ h5
        · exact not_defects_table_mem_render _ _ _ _ h6
        · exact not_defects_table_mem_render _ _ _ _ h7
        · exact not_defects_table_mem_render _ _ _ _ h8
        · simp only [List.mem_cons, List.not_mem_nil, or_false] at h9
          rcases h9 with h | h | h
          · exact Elem.noConfusion h
          · exact Elem.noConfusion h
          · unfold defectsHeaderRow signatureRows at h
            exact table_ne_of_head_cell_ne (by decide) h
      · exact not_defects_table_mem_imageblock _ _ _ _ hm

/-- A concrete report record with no defects (for witnesses). -/
def emptyReportRecord : ReportRecord :=
  { coach_number := "45001"
    coach_code := "VB12"
    coach_type := "VB"
    secondary_type := "Air Spring"
    bogie1_number := "B1"
    bogie2_number := ""
    date_of_receipt := "2024-01-15T00:00:00"
    inspector_name := "A"
    spring_counts := [("Primary", 4)]
    bogie1_inspections := []
    bogie2_inspections := []
    bogie1_must_do := []
    bogie2_must_do := []
    bogie1_defects := []
    bogie2_defects := []
    sig_shop_name := none
    sig_ins_name := none
    sig_shop_date := none
    sig_ins_date := none }

/-- A concrete report record with one bogie-1 defect (for witnesses). -/
def oneDefectReportRecord : ReportRecord :=
  { emptyReportRecord with bogie1_defects := [⟨"Primary", "L1", "CRACK", "Top"⟩] }

/-- Witness for C8: a record with one defect shows the combined table; a
record with none shows the notice. -/
theorem defects_summary_spec_witness :
    Elem.table (defectsHeaderRow :: defectsCombined oneDefectReportRecord [("CRACK", "Crack")]) ∈
      generate_inspection_pdf_story oneDefectReportRecord [("CRACK", "Crack")] none none
        (fun b => Except.ok b) ∧
    Elem.para "<i>No defects reported.</i>" ∈
      generate_inspection_pdf_story emptyReportRecord [] none none (fun b => Except.ok b) := by
  constructor
  · exact (defects_summary_spec oneDefectReportRecord [("CRACK", "Crack")] none none
      (fun b => Except.ok b)).1 (Or.inl (by decide))
  · exact ((defects_summary_spec emptyReportRecord [] none none
      (fun b => Except.ok b)).2 rfl rfl).1

/-- Claim C9: the signature-image block never disturbs the rest of the
story: the story always extends `mainStory` (every other section is
present), and if decoding either supplied image fails the block is dropped
whole, leaving exactly `mainStory` — document assembly is never aborted. -/
theorem sig_image_failure_isolated (r : ReportRecord)
    (defect_code_to_name : List (String × String))
    (sig_shop_bytes sig_ins_bytes : Option (List Nat))
    (dec : List Nat → Except String (List Nat)) :
    (∃ tail, generate_inspection_pdf_story r defect_code_to_name sig_shop_bytes sig_ins_bytes dec =
        mainStory r defect_code_to_name ++ tail) ∧
    (Elem.para "SPRING INSPECTION REPORT" ∈
      generate_inspection_pdf_story r defect_code_to_name sig_shop_bytes sig_ins_bytes dec) ∧
    (Elem.table (signatureRows r) ∈
      generate_inspection_pdf_story r defect_code_to_name sig_shop_bytes sig_ins_bytes dec) ∧
    (∀ b e, sig_shop_bytes = some b → b ≠ [] → dec b = Except.error e →
      generate_inspection_pdf_story r defect_code_to_name sig_shop_bytes sig_ins_bytes dec =
        mainStory r defect_code_to_name) ∧
    (∀ b e, sig_ins_bytes = some b → b ≠ [] → dec b = Except.error e →
      generate_inspection_pdf_story r defect_code_to_name sig_shop_bytes sig_ins_bytes dec =
        mainStory r defect_code_to_name) := by
  refine ⟨⟨imageBlock sig_shop_bytes sig_ins_bytes dec, rfl⟩, ?_, ?_, ?_, ?_⟩
  · show _ ∈ mainStory r defect_code_to_name ++ _
    apply List.mem_append_left
    unfold mainStory
    simp
  · show _ ∈ mainStory r defect_code_to_name ++ _
    apply List.mem_append_left
    unfold mainStory
    simp
  · intro b e hb hb0 he
    have hbe : b.isEmpty = false := by
      cases b with
      | nil => exact absurd rfl hb0
      | cons x xs => rfl
    have hp : bytesPresent sig_shop_bytes = true := by
      rw [hb]
      simp [bytesPresent, hbe]
    have hblock : imageBlock sig_shop_bytes sig_ins_bytes dec = [] := by
      unfold imageBlock
      rw [if_pos (by simp [hp])]
      have hatt : attemptImages sig_shop_bytes sig_ins_bytes dec = Except.error e := by
        unfold attemptImages
        have hslot : decodeSlot sig_shop_bytes dec = Except.error e := by
          simp [decodeSlot, hb, hbe, he]
        rw [hslot]
      rw [hatt]
    show mainStory r defect_code_to_name ++ _ = _
    rw [hblock, List.append_nil]
  · intro b e hb hb0 he
    have hbe : b.isEmpty = false := by
      cases b with
      | nil => exact absurd rfl hb0
      | cons x xs => rfl
    have hp : bytesPresent sig_ins_bytes = true := by
      rw [hb]
      simp [bytesPresent, hbe]
    have hslot2 : decodeSlot sig_ins_bytes dec = Except.error e := by
      simp [decodeSlot, hb, hbe, he]
    have hblock : imageBlock sig_shop_bytes sig_ins_bytes dec = [] := by
      unfold imageBlock
      rw [if_pos (by simp [hp])]
      cases h0 : decodeSlot sig_shop_bytes dec with
      | error e2 =>
        have hatt : attemptImages sig_shop_bytes sig_ins_bytes dec = Except.error e2 := by
          unfold attemptImages
          rw [h0]
        rw [hatt]
      | ok c0 =>
        have hatt : attemptImages sig_shop_bytes sig_ins_bytes dec = Except.error e := by
          unfold attemptImages
          rw [h0, hslot2]
        rw [hatt]
    show mainStory r defect_code_to_name ++ _ = _
    rw [hblock, List.append_nil]

/-- Witness for C9: with undecodable shop-signature bytes the story is
exactly the main story; with failing inspection-signature bytes likewise. -/
theorem sig_image_failure_isolated_witness :
    generate_inspection_pdf_story emptyReportRecord [] (some [0]) none
        (fun _ => Except.error "bad image") = mainStory emptyReportRecord [] ∧
    generate_inspection_pdf_story emptyReportRecord [] none (some [1])
        (fun _ => Except.error "bad image") = mainStory emptyReportRecord [] := by
  constructor
  · exact (sig_image_failure_isolated emptyReportRecord [] (some [0]) none
      (fun _ => Except.error "bad image")).2.2.2.1 [0] "bad image" rfl (by decide) rfl
  · exact (sig_image_failure_isolated emptyReportRecord [] none (some [1])
      (fun _ => Except.error "bad image")).2.2.2.2 [1] "bad image" rfl (by decide) rfl
